import Mathlib

/-!
Verification of the rate-limiting middleware of `go-bfwebservice`
(`middleware/ratelimiter.go` together with the error helpers of
`server/error.go`).

The middleware keeps, behind one mutex, a map `hits` from client host to
request count and a timestamp `reset`.  Each request runs, as one atomic
unit: the window-expiry check (clear `hits` and advance `reset` when
`now` is strictly after `reset`), client-key extraction via
`net.SplitHostPort` on `RemoteAddr`, the new-client capacity check, and
the increment of the per-client counter; the per-client limit is then
checked on the local copy of the count.  Because the mutex covers the
whole mutating region, any concurrent execution is a serialization of
these atomic steps, which is what the state-passing functions below
model.  Go `int` values and `time.Time`/`time.Duration` (nanoseconds)
are modelled as `Int`; Go strings as `List Char`; the Go map as an
association list whose key set stays duplicate-free.
-/

/-- Outcome of the admission decision for one request. -/
inductive AdmissionOutcome where
  | Allowed
  | RejectedNewClientCapacityExceeded
  | RejectedRequestLimitExceeded
  | RejectedMalformedClientIdentity
deriving DecidableEq, Repr

/-- `RateLimitConfig` from `middleware/ratelimiter.go`: `MaxRequests`,
`MaxClients` and `Window` (a `time.Duration` in nanoseconds). -/
structure RateLimitConfig where
  maxRequests : Int
  maxClients : Int
  window : Int
deriving DecidableEq, Repr

/-- `DefaultRateLimitConfig` from `middleware/ratelimiter.go`:
100 requests, 1000 clients, `time.Minute` = 6e10 ns. -/
def defaultRateLimitConfig : RateLimitConfig :=
  ⟨100, 1000, 60000000000⟩

/-- The mutable state captured by the `RateLimit` closure: the counter
map `hits` (client key to request count) and the `reset` timestamp. -/
structure LimiterState where
  hits : List (List Char × Int)
  reset : Int
deriving DecidableEq, Repr

/-- Go map read `hits[host]`: value of the entry for `k`, `0` when
absent (the Go zero value). -/
def mapGet : List (List Char × Int) → List Char → Int
  | [], _ => 0
  | (k', v) :: rest, k => if k' = k then v else mapGet rest k

/-- Go presence test `_, exists := hits[host]`. -/
def mapHas : List (List Char × Int) → List Char → Bool
  | [], _ => false
  | (k', _) :: rest, k => if k' = k then true else mapHas rest k

/-- Go increment `hits[host]++`: bump the entry for `k`, inserting it at
`1` when absent. -/
def mapInc : List (List Char × Int) → List Char → List (List Char × Int)
  | [], k => [(k, 1)]
  | (k', v) :: rest, k =>
      if k' = k then (k', v + 1) :: rest else (k', v) :: mapInc rest k

/-- The window-expiry check at the top of the `RateLimit` handler:
`if now.After(reset) { hits = map[string]int{}; reset = now.Add(c.Window) }`.
Returns the new state and whether a reset happened. -/
def windowCheck (c : RateLimitConfig) (s : LimiterState) (now : Int) :
    LimiterState × Bool :=
  if s.reset < now then (⟨[], now + c.window⟩, true) else (s, false)

/-- The admission logic of the `RateLimit` handler after key extraction:
reject a new client when the map is full, otherwise increment the
counter for `host` and reject when the updated count exceeds
`MaxRequests`. -/
def admission (c : RateLimitConfig) (s : LimiterState) (host : List Char) :
    AdmissionOutcome × LimiterState :=
  if mapHas s.hits host = false ∧ (s.hits.length : Int) ≥ c.maxClients then
    (.RejectedNewClientCapacityExceeded, s)
  else
    let hits := mapInc s.hits host
    let count := mapGet hits host
    if count > c.maxRequests then
      (.RejectedRequestLimitExceeded, ⟨hits, s.reset⟩)
    else
      (.Allowed, ⟨hits, s.reset⟩)

/-- Index of the last occurrence of `c`, mirroring the `last` helper used
by Go `net.SplitHostPort`. -/
def lastIdx (c : Char) : List Char → Option Nat
  | [] => none
  | x :: xs =>
      match lastIdx c xs with
      | some i => some (i + 1)
      | none => if x = c then some 0 else none

/-- Index of the first occurrence of `c`, mirroring Go `byteIndex`. -/
def firstIdx (c : Char) : List Char → Option Nat
  | [] => none
  | x :: xs => if x = c then some 0 else (firstIdx c xs).map (· + 1)

/-- Go `net.SplitHostPort` on `RemoteAddr` (the stdlib function the
middleware calls): the port starts after the last colon; a bracketed
host must have the first `]` just before that colon; an unbracketed host
may contain no further colon; no stray brackets.  All error returns of
the Go function collapse to `none`. -/
def splitHostPort (hp : List Char) : Option (List Char × List Char) :=
  match lastIdx ':' hp with
  | none => none
  | some i =>
    if hp.head? = some '[' then
      match firstIdx ']' hp with
      | none => none
      | some e =>
        if e + 1 = hp.length then none
        else if e + 1 = i then
          if (firstIdx '[' (hp.drop 1)).isSome then none
          else if (firstIdx ']' (hp.drop (e + 1))).isSome then none
          else some ((hp.drop 1).take (e - 1), hp.drop (i + 1))
        else none
    else
      let host := hp.take i
      if (firstIdx ':' host).isSome then none
      else if (firstIdx '[' hp).isSome then none
      else if (firstIdx ']' hp).isSome then none
      else some (host, hp.drop (i + 1))

/-- One full pass of the `RateLimit` handler body over the shared state:
window-expiry check, key extraction from `RemoteAddr`, then admission. -/
def rateLimitStep (c : RateLimitConfig) (s : LimiterState) (now : Int)
    (remoteAddr : List Char) : AdmissionOutcome × LimiterState :=
  let s1 := (windowCheck c s now).1
  match splitHostPort remoteAddr with
  | none => (.RejectedMalformedClientIdentity, s1)
  | some hp => admission c s1 hp.1

/-- An invocation of the error-rendering helpers of `server/error.go`:
status code, title and message passed to `RenderError`. -/
structure ErrorCall where
  code : Int
  title : String
  message : String
deriving DecidableEq, Repr

/-- `server.BadRequest`: renders 400 with these texts. -/
def badRequest : ErrorCall :=
  ⟨400, "Bad Request", "The request could not be processed."⟩

/-- `server.TooManyRequests`: renders 429 with these texts. -/
def tooManyRequests : ErrorCall :=
  ⟨429, "Too Many Requests",
    "You have sent too many requests in a given amount of time. Please try again later."⟩

/-- What the middleware hands control to after the admission decision:
either the wrapped handler (`next.ServeHTTP(w, r)`, carrying the
untouched request) or an error renderer call that ends the chain. -/
inductive HandlerResult where
  | next (remoteAddr : List Char)
  | rejected (e : ErrorCall)
deriving DecidableEq, Repr

/-- How each admission outcome is surfaced by the `RateLimit` handler:
malformed identity goes to `server.BadRequest`, both rate-limit
rejections go to `server.TooManyRequests`, and `Allowed` falls through
to the wrapped handler with the original request. -/
def outcomeResponse (remoteAddr : List Char) :
    AdmissionOutcome → HandlerResult
  | .Allowed => .next remoteAddr
  | .RejectedMalformedClientIdentity => .rejected badRequest
  | .RejectedNewClientCapacityExceeded => .rejected tooManyRequests
  | .RejectedRequestLimitExceeded => .rejected tooManyRequests

/-- The observable behaviour of one request through the middleware: the
response path taken and the state left behind. -/
def rateLimitHandle (c : RateLimitConfig) (s : LimiterState) (now : Int)
    (remoteAddr : List Char) : HandlerResult × LimiterState :=
  let p := rateLimitStep c s now remoteAddr
  (outcomeResponse remoteAddr p.1, p.2)

/-- Outcomes of `n` consecutive requests from the same client key with
no window reset in between (each request is the atomic admission step;
`windowCheck` is the identity while `now` stays at or before `reset`). -/
def runSameKey (c : RateLimitConfig) (key : List Char) :
    Nat → LimiterState → List AdmissionOutcome × LimiterState
  | 0, s => ([], s)
  | n + 1, s =>
      let p := admission c s key
      let q := runSameKey c key n p.2
      (p.1 :: q.1, q.2)

example :
    splitHostPort "127.0.0.1:8080".toList =
      some ("127.0.0.1".toList, "8080".toList) := by decide

example : splitHostPort "localhost".toList = none := by decide

example : splitHostPort ":8080".toList = some ([], "8080".toList) := by decide

example :
    splitHostPort "[::1]:80".toList = some ("::1".toList, "80".toList) := by
  decide

example : splitHostPort "1:2:3".toList = none := by decide

example :
    (runSameKey ⟨2, 10, 5⟩ "a".toList 3 ⟨[], 0⟩).1 =
      [.Allowed, .Allowed, .RejectedRequestLimitExceeded] := by decide

/-! ### Basic facts about the counter map operations -/

theorem mapGet_mapInc_self (m : List (List Char × Int)) (k : List Char) :
    mapGet (mapInc m k) k = mapGet m k + 1 := by
  induction m with
  | nil => simp [mapInc, mapGet]
  | cons p rest ih =>
      obtain ⟨k', v⟩ := p
      by_cases h : k' = k <;> simp [mapInc, mapGet, h, ih]

theorem mapGet_mapInc_other (m : List (List Char × Int)) (k k' : List Char)
    (h : k' ≠ k) : mapGet (mapInc m k) k' = mapGet m k' := by
  have h2 : k ≠ k' := Ne.symm h
  induction m with
  | nil => simp [mapInc, mapGet, h2]
  | cons p rest ih =>
      obtain ⟨ka, v⟩ := p
      by_cases hk : ka = k
      · subst hk
        simp [mapInc, mapGet, h2]
      · by_cases hk' : ka = k' <;> simp [mapInc, mapGet, hk, hk', ih, h, h2]

theorem mapHas_mapInc_self (m : List (List Char × Int)) (k : List Char) :
    mapHas (mapInc m k) k = true := by
  induction m with
  | nil => simp [mapInc, mapHas]
  | cons p rest ih =>
      obtain ⟨k', v⟩ := p
      by_cases h : k' = k <;> simp [mapInc, mapHas, h, ih]

theorem mapHas_iff_mem (m : List (List Char × Int)) (k : List Char) :
    mapHas m k = true ↔ k ∈ m.map Prod.fst := by
  induction m with
  | nil => simp [mapHas]
  | cons p rest ih =>
      obtain ⟨k', v⟩ := p
      by_cases h : k' = k
      · simp [mapHas, h]
      · simp [mapHas, h, ih, Ne.symm h]

theorem mapInc_keys_of_has (m : List (List Char × Int)) (k : List Char)
    (h : mapHas m k = true) :
    (mapInc m k).map Prod.fst = m.map Prod.fst := by
  induction m with
  | nil => simp [mapHas] at h
  | cons p rest ih =>
      obtain ⟨k', v⟩ := p
      by_cases hk : k' = k
      · simp [mapInc, hk]
      · simp [mapHas, hk] at h
        simp [mapInc, hk, ih h]

theorem mapInc_keys_of_not_has (m : List (List Char × Int)) (k : List Char)
    (h : mapHas m k = false) :
    (mapInc m k).map Prod.fst = m.map Prod.fst ++ [k] := by
  induction m with
  | nil => simp [mapInc]
  | cons p rest ih =>
      obtain ⟨k', v⟩ := p
      by_cases hk : k' = k
      · simp [mapHas, hk] at h
      · simp [mapHas, hk] at h
        simp [mapInc, hk, ih h]

theorem mapInc_length_of_has (m : List (List Char × Int)) (k : List Char)
    (h : mapHas m k = true) : (mapInc m k).length = m.length := by
  have := congrArg List.length (mapInc_keys_of_has m k h)
  simpa using this

theorem mapInc_length_of_not_has (m : List (List Char × Int)) (k : List Char)
    (h : mapHas m k = false) : (mapInc m k).length = m.length + 1 := by
  have := congrArg List.length (mapInc_keys_of_not_has m k h)
  simpa using this

theorem mapInc_values (m : List (List Char × Int)) (k : List Char)
    (h : ∀ p ∈ m, 1 ≤ p.2) : ∀ p ∈ mapInc m k, 1 ≤ p.2 := by
  induction m with
  | nil =>
      intro p hp
      simp [mapInc] at hp
      simp [hp]
  | cons q rest ih =>
      obtain ⟨k', v⟩ := q
      intro p hp
      by_cases hk : k' = k
      · simp [mapInc, hk] at hp
        rcases hp with hp | hp
        · have := h (k', v) (by simp)
          simp at this
          simp [hp]
          omega
        · exact h p (by simp [hp])
      · simp [mapInc, hk] at hp
        rcases hp with hp | hp
        · exact h p (by simp [hp])
        · exact ih (fun q hq => h q (by simp [hq])) p hp

/-! ### Characterizations of the admission step -/

theorem admission_fst_characterization (c : RateLimitConfig) (s : LimiterState)
    (key : List Char) :
    (admission c s key).1 =
      (if mapHas s.hits key = false ∧ (s.hits.length : Int) ≥ c.maxClients then
        AdmissionOutcome.RejectedNewClientCapacityExceeded
      else if c.maxRequests < mapGet s.hits key + 1 then
        AdmissionOutcome.RejectedRequestLimitExceeded
      else AdmissionOutcome.Allowed) := by
  by_cases hcap : mapHas s.hits key = false ∧ (s.hits.length : Int) ≥ c.maxClients
  · simp [admission, hcap]
  · by_cases hcnt : c.maxRequests < mapGet s.hits key + 1 <;>
      simp [admission, hcap, hcnt, mapGet_mapInc_self]

theorem admission_snd_characterization (c : RateLimitConfig) (s : LimiterState)
    (key : List Char) :
    (admission c s key).2 =
      (if mapHas s.hits key = false ∧ (s.hits.length : Int) ≥ c.maxClients then s
      else ⟨mapInc s.hits key, s.reset⟩) := by
  by_cases hcap : mapHas s.hits key = false ∧ (s.hits.length : Int) ≥ c.maxClients
  · simp [admission, hcap]
  · by_cases hcnt : c.maxRequests < mapGet s.hits key + 1 <;>
      simp [admission, hcap, hcnt, mapGet_mapInc_self]

theorem admission_ne_malformed (c : RateLimitConfig) (s : LimiterState)
    (key : List Char) :
    (admission c s key).1 ≠ AdmissionOutcome.RejectedMalformedClientIdentity := by
  rw [admission_fst_characterization]
  split
  · simp
  · split <;> simp

/-! ### Sequences of same-key requests -/

/-- The expected outcome stream when the client counter stands at `j - 1`
before the first of the remaining requests: request number `j`, `j + 1`,
... succeed while the running count stays at or below `MaxRequests`. -/
def outcomesFrom (mr j : Int) : Nat → List AdmissionOutcome
  | 0 => []
  | n + 1 =>
      (if mr < j then AdmissionOutcome.RejectedRequestLimitExceeded
        else AdmissionOutcome.Allowed) :: outcomesFrom mr (j + 1) n

theorem admission_tracked_singleton (c : RateLimitConfig) (r v : Int)
    (key : List Char) :
    admission c ⟨[(key, v)], r⟩ key =
      ((if c.maxRequests < v + 1 then AdmissionOutcome.RejectedRequestLimitExceeded
        else AdmissionOutcome.Allowed), ⟨[(key, v + 1)], r⟩) := by
  by_cases h : c.maxRequests < v + 1 <;>
    simp [admission, mapHas, mapInc, mapGet, h]

theorem admission_empty_table (c : RateLimitConfig) (r : Int) (key : List Char)
    (hmc : 1 ≤ c.maxClients) :
    admission c ⟨[], r⟩ key =
      ((if c.maxRequests < 1 then AdmissionOutcome.RejectedRequestLimitExceeded
        else AdmissionOutcome.Allowed), ⟨[(key, 1)], r⟩) := by
  have h0 : ¬ ((0 : Int) ≥ c.maxClients) := by omega
  by_cases h : c.maxRequests < 1 <;>
    simp [admission, mapHas, mapInc, mapGet, h0, h]

theorem runSameKey_singleton (c : RateLimitConfig) (key : List Char) (r : Int) :
    ∀ (n : Nat) (v : Int),
      (runSameKey c key n ⟨[(key, v)], r⟩).1 = outcomesFrom c.maxRequests (v + 1) n := by
  intro n
  induction n with
  | zero => intro v; rfl
  | succ n ih =>
      intro v
      simp [runSameKey, admission_tracked_singleton, outcomesFrom, ih]

theorem runSameKey_empty_table (c : RateLimitConfig) (key : List Char) (r : Int)
    (hmc : 1 ≤ c.maxClients) :
    ∀ n, (runSameKey c key n ⟨[], r⟩).1 = outcomesFrom c.maxRequests 1 n := by
  intro n
  cases n with
  | zero => rfl
  | succ n =>
      simp [runSameKey, admission_empty_table c r key hmc, outcomesFrom,
        runSameKey_singleton]

theorem outcomesFrom_get (mr : Int) :
    ∀ (n : Nat) (j : Int) (m : Nat), m < n →
      (outcomesFrom mr j n).get? m =
        some (if mr < j + m then AdmissionOutcome.RejectedRequestLimitExceeded
          else AdmissionOutcome.Allowed) := by
  intro n
  induction n with
  | zero => intro j m hm; omega
  | succ n ih =>
      intro j m hm
      cases m with
      | zero => simp [outcomesFrom]
      | succ m =>
          have hm' : m < n := by omega
          have harith : j + 1 + (m : Int) = j + ((m + 1 : Nat) : Int) := by
            push_cast
            ring
          rw [outcomesFrom, List.get?_cons_succ, ih (j + 1) m hm', harith]

theorem outcomesFrom_eq_replicate (mr : Int) :
    ∀ (n : Nat) (j : Int),
      outcomesFrom mr j n =
        List.replicate (min n (mr - j + 1).toNat) AdmissionOutcome.Allowed ++
          List.replicate (n - min n (mr - j + 1).toNat)
            AdmissionOutcome.RejectedRequestLimitExceeded := by
  intro n
  induction n with
  | zero => intro j; simp [outcomesFrom]
  | succ n ih =>
      intro j
      by_cases h : mr < j
      · have ht : (mr - j + 1).toNat = 0 := by omega
        have ht' : (mr - (j + 1) + 1).toNat = 0 := by omega
        rw [outcomesFrom, if_pos h, ih (j + 1)]
        simp [ht, ht', List.replicate_succ]
      · have ht : (mr - j + 1).toNat = (mr - (j + 1) + 1).toNat + 1 := by omega
        rw [outcomesFrom, if_neg h, ih (j + 1), ht]
        have hmin : min (n + 1) ((mr - (j + 1) + 1).toNat + 1) =
            min n (mr - (j + 1) + 1).toNat + 1 := by omega
        have hsub : (n + 1) - ((min n (mr - (j + 1) + 1).toNat) + 1) =
            n - min n (mr - (j + 1) + 1).toNat := by omega
        rw [hmin, hsub, List.replicate_succ]
        simp

/-! ### Facts about host-port splitting -/

theorem lastIdx_eq_none (c : Char) :
    ∀ (l : List Char), c ∉ l → lastIdx c l = none := by
  intro l
  induction l with
  | nil => intro _; rfl
  | cons x xs ih =>
      intro h
      have hx : ¬ x = c := by
        intro hx
        exact h (by simp [hx])
      have hxs : c ∉ xs := fun hm => h (by simp [hm])
      simp [lastIdx, ih hxs, hx]

theorem firstIdx_eq_none (c : Char) :
    ∀ (l : List Char), c ∉ l → firstIdx c l = none := by
  intro l
  induction l with
  | nil => intro _; rfl
  | cons x xs ih =>
      intro h
      have hx : ¬ x = c := by
        intro hx
        exact h (by simp [hx])
      have hxs : c ∉ xs := fun hm => h (by simp [hm])
      simp [firstIdx, ih hxs, hx]

theorem splitHostPort_colon_emptyHost (p : List Char)
    (hc : ':' ∉ p) (hb1 : '[' ∉ p) (hb2 : ']' ∉ p) :
    splitHostPort (':' :: p) = some ([], p) := by
  have hl : lastIdx ':' (':' :: p) = some 0 := by
    simp [lastIdx, lastIdx_eq_none ':' p hc]
  have hbra : ¬ ((':' :: p).head? = some '[') := by simp
  have hf1 : firstIdx '[' (':' :: p) = none := by
    simp [firstIdx, firstIdx_eq_none '[' p hb1]
  have hf2 : firstIdx ']' (':' :: p) = none := by
    simp [firstIdx, firstIdx_eq_none ']' p hb2]
  simp [splitHostPort, hl, hbra, hf1, hf2, firstIdx,
    firstIdx_eq_none '[' p hb1, firstIdx_eq_none ']' p hb2]

/-! ### The bounded-table invariant -/

/-- The invariant of the counter table: distinct keys (so `len(hits)`
counts clients), at most `MaxClients` of them, and every stored count is
at least `1`. -/
def tableInv (c : RateLimitConfig) (s : LimiterState) : Prop :=
  (s.hits.map Prod.fst).Nodup ∧ (s.hits.length : Int) ≤ c.maxClients ∧
    ∀ p ∈ s.hits, 1 ≤ p.2

theorem windowCheck_preserves_inv (c : RateLimitConfig) (s : LimiterState)
    (now : Int) (hmc : 1 ≤ c.maxClients) (hinv : tableInv c s) :
    tableInv c (windowCheck c s now).1 := by
  unfold windowCheck
  split
  · refine ⟨by simp, ?_, by simp⟩
    simp
    omega
  · exact hinv

theorem admission_preserves_inv (c : RateLimitConfig) (s : LimiterState)
    (key : List Char) (hinv : tableInv c s) :
    tableInv c (admission c s key).2 := by
  obtain ⟨hnd, hlen, hval⟩ := hinv
  rw [admission_snd_characterization]
  by_cases hcap : mapHas s.hits key = false ∧ (s.hits.length : Int) ≥ c.maxClients
  · rw [if_pos hcap]
    exact ⟨hnd, hlen, hval⟩
  · rw [if_neg hcap]
    by_cases hhas : mapHas s.hits key = true
    · refine ⟨?_, ?_, mapInc_values _ _ hval⟩
      · simpa [mapInc_keys_of_has _ _ hhas] using hnd
      · simpa [mapInc_length_of_has _ _ hhas] using hlen
    · have hh : mapHas s.hits key = false := by
        cases hb : mapHas s.hits key
        · rfl
        · exact absurd hb hhas
      have hlt : ¬ ((s.hits.length : Int) ≥ c.maxClients) := fun hge => hcap ⟨hh, hge⟩
      refine ⟨?_, ?_, mapInc_values _ _ hval⟩
      · have hkeys := mapInc_keys_of_not_has s.hits key hh
        have hnotmem : key ∉ s.hits.map Prod.fst := by
          intro hmem
          rw [(mapHas_iff_mem s.hits key).mpr hmem] at hh
          exact Bool.noConfusion hh
        simp [hkeys, List.nodup_append, hnd, hnotmem]
      · have hlcast := mapInc_length_of_not_has s.hits key hh
        simp [hlcast]
        omega

/-- If the stored count for `key` already exceeds `MaxRequests`, every
further same-window request from `key` is rejected over the limit. -/
theorem runSameKey_all_rejected (c : RateLimitConfig) (key : List Char) :
    ∀ (n : Nat) (s : LimiterState),
      mapHas s.hits key = true → c.maxRequests < mapGet s.hits key →
      ∀ o ∈ (runSameKey c key n s).1,
        o = AdmissionOutcome.RejectedRequestLimitExceeded := by
  intro n
  induction n with
  | zero =>
      intro s _ _ o ho
      simp [runSameKey] at ho
  | succ n ih =>
      intro s hhas hgt o ho
      have hcap : ¬ (mapHas s.hits key = false ∧
          (s.hits.length : Int) ≥ c.maxClients) := by
        simp [hhas]
      have hfst : (admission c s key).1 =
          AdmissionOutcome.RejectedRequestLimitExceeded := by
        rw [admission_fst_characterization, if_neg hcap, if_pos (by omega)]
      have hsnd : (admission c s key).2 = ⟨mapInc s.hits key, s.reset⟩ := by
        rw [admission_snd_characterization, if_neg hcap]
      simp only [runSameKey, List.mem_cons] at ho
      rcases ho with ho | ho
      · rw [ho, hfst]
      · refine ih (admission c s key).2 ?_ ?_ o ho
        · rw [hsnd]
          exact mapHas_mapInc_self s.hits key
        · rw [hsnd]
          simpa [mapGet_mapInc_self] using (by omega : c.maxRequests < mapGet s.hits key + 1)

/-! ### Claim theorems -/

/-- C1: for requests from a single client key in one window (no reset in
between, window-fresh empty table, a policy tracking at least one
client), the Nth request is `Allowed` iff `N ≤ MaxRequests`, and every
request with `N > MaxRequests` is `RejectedRequestLimitExceeded`; the
strictly-greater-than check on the post-increment count admits exactly
`MaxRequests` requests and first rejects request `MaxRequests + 1`. -/
theorem rateLimit_nth_same_key_allowed_iff (c : RateLimitConfig)
    (key : List Char) (r : Int) (n i : Nat) (hmc : 1 ≤ c.maxClients)
    (h1 : 1 ≤ i) (hn : i ≤ n) :
    ((runSameKey c key n ⟨[], r⟩).1.get? (i - 1) =
        some AdmissionOutcome.Allowed ↔ (i : Int) ≤ c.maxRequests) ∧
    (c.maxRequests < (i : Int) →
      (runSameKey c key n ⟨[], r⟩).1.get? (i - 1) =
        some AdmissionOutcome.RejectedRequestLimitExceeded) := by
  rw [runSameKey_empty_table c key r hmc n]
  have hm : i - 1 < n := by omega
  rw [outcomesFrom_get c.maxRequests n 1 (i - 1) hm]
  have hj : (1 : Int) + ((i - 1 : Nat) : Int) = (i : Int) := by omega
  rw [hj]
  by_cases hlt : c.maxRequests < (i : Int)
  · rw [if_pos hlt]
    refine ⟨⟨fun hEq => ?_, fun hle => ?_⟩, fun _ => rfl⟩
    · simp at hEq
    · omega
  · rw [if_neg hlt]
    exact ⟨⟨fun _ => by omega, fun _ => rfl⟩, fun h => absurd h hlt⟩

theorem rateLimit_nth_same_key_allowed_iff_witness :
    ((runSameKey ⟨2, 10, 5⟩ ['a'] 3 ⟨[], 0⟩).1.get? 1 =
      some AdmissionOutcome.Allowed) ∧
    ((runSameKey ⟨2, 10, 5⟩ ['a'] 3 ⟨[], 0⟩).1.get? 2 =
      some AdmissionOutcome.RejectedRequestLimitExceeded) :=
  ⟨(rateLimit_nth_same_key_allowed_iff ⟨2, 10, 5⟩ ['a'] 0 3 2 (by decide)
      (by decide) (by decide)).1.mpr (by decide),
    (rateLimit_nth_same_key_allowed_iff ⟨2, 10, 5⟩ ['a'] 0 3 3 (by decide)
      (by decide) (by decide)).2 (by decide)⟩

/-- C2: a request from a key not in the table while the table already
holds at least `MaxClients` keys is rejected as a new client with the
table untouched; a request from a tracked key is evaluated normally
against its own incremented count, whatever the table size. -/
theorem rateLimit_capacity_check (c : RateLimitConfig) (s : LimiterState)
    (key : List Char) :
    (mapHas s.hits key = false → (s.hits.length : Int) ≥ c.maxClients →
      admission c s key = (.RejectedNewClientCapacityExceeded, s)) ∧
    (mapHas s.hits key = true →
      admission c s key =
        ((if c.maxRequests < mapGet s.hits key + 1 then
            AdmissionOutcome.RejectedRequestLimitExceeded
          else AdmissionOutcome.Allowed),
          ⟨mapInc s.hits key, s.reset⟩)) := by
  constructor
  · intro h1 h2
    simp [admission, h1, h2]
  · intro h
    have hcap : ¬ (mapHas s.hits key = false ∧
        (s.hits.length : Int) ≥ c.maxClients) := by simp [h]
    have hfst := admission_fst_characterization c s key
    have hsnd := admission_snd_characterization c s key
    rw [if_neg hcap] at hfst hsnd
    exact Prod.ext_iff.mpr ⟨hfst, hsnd⟩

theorem rateLimit_capacity_check_witness :
    admission ⟨100, 1, 60⟩ ⟨[(['a'], 1)], 7⟩ ['b'] =
      (AdmissionOutcome.RejectedNewClientCapacityExceeded, ⟨[(['a'], 1)], 7⟩) :=
  (rateLimit_capacity_check ⟨100, 1, 60⟩ ⟨[(['a'], 1)], 7⟩ ['b']).1
    (by decide) (by decide)

/-- C3: for a policy tracking at least one client, a full pass of the
middleware (window check, key extraction, any admission outcome)
preserves the table invariant: distinct keys never exceed `MaxClients`
and every stored count is at least `1`. -/
theorem rateLimit_table_invariant (c : RateLimitConfig) (s : LimiterState)
    (now : Int) (addr : List Char) (hmc : 1 ≤ c.maxClients)
    (hinv : tableInv c s) :
    tableInv c (rateLimitStep c s now addr).2 := by
  have h1 : tableInv c (windowCheck c s now).1 :=
    windowCheck_preserves_inv c s now hmc hinv
  cases hsp : splitHostPort addr with
  | none =>
      simp only [rateLimitStep, hsp]
      exact h1
  | some hp =>
      simp only [rateLimitStep, hsp]
      exact admission_preserves_inv c _ hp.1 h1

theorem rateLimit_table_invariant_witness :
    tableInv ⟨2, 10, 5⟩ (rateLimitStep ⟨2, 10, 5⟩ ⟨[], 9⟩ 0 ("a:1".toList)).2 :=
  rateLimit_table_invariant ⟨2, 10, 5⟩ ⟨[], 9⟩ 0 ("a:1".toList) (by decide)
    ⟨by decide, by decide, by decide⟩

/-- C4: a reset happens iff `now` is strictly after `reset`; a reset
replaces the table by the empty table and sets `reset` to
`now + Window` (fixed cadence from the check moment); with no requests
in between, a second expiry check again finds an empty table and
advances `reset` by exactly one window from that check moment. -/
theorem windowCheck_reset_policy (c : RateLimitConfig) (s : LimiterState)
    (now now' : Int) :
    ((windowCheck c s now).2 = true ↔ s.reset < now) ∧
    (s.reset < now → (windowCheck c s now).1 = ⟨[], now + c.window⟩) ∧
    (¬ s.reset < now → (windowCheck c s now).1 = s) ∧
    (s.reset < now → now + c.window < now' →
      windowCheck c (windowCheck c s now).1 now' = (⟨[], now' + c.window⟩, true)) := by
  by_cases h : s.reset < now
  · refine ⟨by simp [windowCheck, h], fun _ => by simp [windowCheck, h],
      fun hc => absurd h hc, fun _ hn => ?_⟩
    simp [windowCheck, h, hn]
  · exact ⟨by simp [windowCheck, h], fun hc => absurd hc h,
      fun _ => by simp [windowCheck, h], fun hc => absurd hc h⟩

theorem windowCheck_reset_policy_witness :
    (windowCheck ⟨2, 10, 5⟩ ⟨[(['a'], 1)], 0⟩ 1).1 = ⟨[], 1 + 5⟩ ∧
    windowCheck ⟨2, 10, 5⟩ (windowCheck ⟨2, 10, 5⟩ ⟨[(['a'], 1)], 0⟩ 1).1 20 =
      (⟨[], 20 + 5⟩, true) :=
  ⟨(windowCheck_reset_policy ⟨2, 10, 5⟩ ⟨[(['a'], 1)], 0⟩ 1 20).2.1 (by decide),
    (windowCheck_reset_policy ⟨2, 10, 5⟩ ⟨[(['a'], 1)], 0⟩ 1 20).2.2.2
      (by decide) (by decide)⟩

/-- C5 counterexample: a malformed `RemoteAddr` arriving just after the
window expired is answered with 400, yet the counter table is NOT left
unmodified: the expiry branch runs first and clears it, dropping the
stored count of client `a` from 5 to 0. -/
theorem rateLimit_malformed_table_change :
    (rateLimitHandle ⟨100, 1000, 60⟩ ⟨[(['a'], 5)], 0⟩ 1 ['x']).1 =
      HandlerResult.rejected badRequest ∧
    (rateLimitHandle ⟨100, 1000, 60⟩ ⟨[(['a'], 5)], 0⟩ 1 ['x']).2.hits = [] ∧
    mapGet (rateLimitHandle ⟨100, 1000, 60⟩ ⟨[(['a'], 5)], 0⟩ 1 ['x']).2.hits
        ['a'] ≠ mapGet [(['a'], 5)] ['a'] := by decide

/-- C5 (amended): whenever the origin string cannot be split into host
and port, the middleware calls `server.BadRequest` (status 400), the
wrapped handler is never invoked, and the table is exactly the result of
the window check alone: no key is inserted and no count is changed
beyond the already-due reset; with no reset due it is untouched. -/
theorem rateLimit_malformed_behaviour (c : RateLimitConfig)
    (s : LimiterState) (now : Int) (addr : List Char)
    (hmal : splitHostPort addr = none) :
    (rateLimitHandle c s now addr).1 = HandlerResult.rejected badRequest ∧
    badRequest.code = 400 ∧
    (∀ a, (rateLimitHandle c s now addr).1 ≠ HandlerResult.next a) ∧
    (rateLimitHandle c s now addr).2 = (windowCheck c s now).1 ∧
    (¬ s.reset < now → (rateLimitHandle c s now addr).2 = s) := by
  have hstep : rateLimitStep c s now addr =
      (AdmissionOutcome.RejectedMalformedClientIdentity,
        (windowCheck c s now).1) := by
    simp [rateLimitStep, hmal]
  refine ⟨?_, rfl, ?_, ?_, ?_⟩
  · simp [rateLimitHandle, hstep, outcomeResponse]
  · intro a
    simp [rateLimitHandle, hstep, outcomeResponse]
  · simp [rateLimitHandle, hstep]
  · intro h
    simp [rateLimitHandle, hstep, windowCheck, h]

theorem rateLimit_malformed_behaviour_witness :
    (rateLimitHandle ⟨100, 1000, 60⟩ ⟨[(['a'], 5)], 9⟩ 1 ['x']).1 =
      HandlerResult.rejected badRequest ∧
    (rateLimitHandle ⟨100, 1000, 60⟩ ⟨[(['a'], 5)], 9⟩ 1 ['x']).2 =
      ⟨[(['a'], 5)], 9⟩ := by
  have h := rateLimit_malformed_behaviour ⟨100, 1000, 60⟩ ⟨[(['a'], 5)], 9⟩ 1
    ['x'] (by decide)
  exact ⟨h.1, h.2.2.2.2 (by decide)⟩

/-- C6 counterexample: a request whose key extraction succeeds but that
is rejected over the client-cardinality cap does NOT mutate the counter
table, contradicting the claim that every such request does. -/
theorem admission_capacity_no_mutation :
    (admission ⟨100, 1, 60⟩ ⟨[(['a'], 1)], 0⟩ ['b']).1 =
      AdmissionOutcome.RejectedNewClientCapacityExceeded ∧
    (admission ⟨100, 1, 60⟩ ⟨[(['a'], 1)], 0⟩ ['b']).2 =
      ⟨[(['a'], 1)], 0⟩ := by decide

/-- C6 (amended): the counter table is mutated (the count of the key is
incremented, inserting at 1 if absent) exactly on the requests that
complete key extraction and are admitted or rejected over the per-client
limit; on a new-client capacity rejection the table is unchanged. -/
theorem admission_mutation_exactly_when_counted (c : RateLimitConfig)
    (s : LimiterState) (key : List Char) :
    ((admission c s key).1 = AdmissionOutcome.Allowed ∨
      (admission c s key).1 = AdmissionOutcome.RejectedRequestLimitExceeded →
      (admission c s key).2.hits = mapInc s.hits key ∧
      mapGet (admission c s key).2.hits key = mapGet s.hits key + 1) ∧
    ((admission c s key).1 =
        AdmissionOutcome.RejectedNewClientCapacityExceeded →
      (admission c s key).2 = s) := by
  by_cases hcap : mapHas s.hits key = false ∧
      (s.hits.length : Int) ≥ c.maxClients
  · constructor
    · intro h
      rcases h with h | h <;>
        · rw [admission_fst_characterization, if_pos hcap] at h
          simp at h
    · intro _
      rw [admission_snd_characterization, if_pos hcap]
  · constructor
    · intro _
      rw [admission_snd_characterization, if_neg hcap]
      exact ⟨rfl, by simp [mapGet_mapInc_self]⟩
    · intro h
      rw [admission_fst_characterization, if_neg hcap] at h
      by_cases hcnt : c.maxRequests < mapGet s.hits key + 1
      · rw [if_pos hcnt] at h
        simp at h
      · rw [if_neg hcnt] at h
        simp at h

theorem admission_mutation_exactly_when_counted_witness :
    (admission ⟨2, 10, 5⟩ ⟨[], 0⟩ ['a']).2.hits = mapInc [] ['a'] :=
  ((admission_mutation_exactly_when_counted ⟨2, 10, 5⟩ ⟨[], 0⟩ ['a']).1
    (Or.inl (by decide))).1

/-- C7: both rate-limit rejection outcomes are surfaced through the same
`server.TooManyRequests` call (status 429) ending the chain, so they are
indistinguishable to the caller; on `Allowed` control passes to the next
handler with the original request. -/
theorem rateLimit_rejections_same_status (c : RateLimitConfig)
    (s : LimiterState) (now : Int) (addr : List Char) :
    ((rateLimitStep c s now addr).1 =
        AdmissionOutcome.RejectedNewClientCapacityExceeded ∨
      (rateLimitStep c s now addr).1 =
        AdmissionOutcome.RejectedRequestLimitExceeded →
      (rateLimitHandle c s now addr).1 =
        HandlerResult.rejected tooManyRequests) ∧
    tooManyRequests.code = 429 ∧
    ((rateLimitStep c s now addr).1 = AdmissionOutcome.Allowed →
      (rateLimitHandle c s now addr).1 = HandlerResult.next addr) := by
  refine ⟨?_, rfl, ?_⟩
  · intro h
    rcases h with h | h <;> simp [rateLimitHandle, h, outcomeResponse]
  · intro h
    simp [rateLimitHandle, h, outcomeResponse]

theorem rateLimit_rejections_same_status_witness :
    (rateLimitHandle ⟨2, 10, 5⟩ ⟨[], 9⟩ 0 ("a:1".toList)).1 =
      HandlerResult.next ("a:1".toList) :=
  (rateLimit_rejections_same_status ⟨2, 10, 5⟩ ⟨[], 9⟩ 0 ("a:1".toList)).2.2
    (by decide)

/-- C8: with `MaxRequests = N - 1`, at least one trackable client and no
window expiry, any serialization of `N` single requests from one client
key (the mutex makes each pass atomic, so every concurrent schedule is
such a serialization) yields exactly `N - 1` `Allowed` outcomes and
exactly `1` rejection, never more, never fewer. -/
theorem rateLimit_n_threads_outcome (c : RateLimitConfig) (key : List Char)
    (r : Int) (N : Nat) (hN : 1 ≤ N) (hmr : c.maxRequests = (N : Int) - 1)
    (hmc : 1 ≤ c.maxClients) :
    (runSameKey c key N ⟨[], r⟩).1 =
      List.replicate (N - 1) AdmissionOutcome.Allowed ++
        [AdmissionOutcome.RejectedRequestLimitExceeded] ∧
    (runSameKey c key N ⟨[], r⟩).1.countP
      (fun o => decide (o = AdmissionOutcome.Allowed)) = N - 1 ∧
    (runSameKey c key N ⟨[], r⟩).1.countP
      (fun o => decide (o = AdmissionOutcome.RejectedRequestLimitExceeded)) = 1 := by
  have heq : (runSameKey c key N ⟨[], r⟩).1 =
      List.replicate (N - 1) AdmissionOutcome.Allowed ++
        [AdmissionOutcome.RejectedRequestLimitExceeded] := by
    rw [runSameKey_empty_table c key r hmc N, outcomesFrom_eq_replicate]
    have h1 : (c.maxRequests - 1 + 1).toNat = N - 1 := by omega
    rw [h1]
    have h2 : min N (N - 1) = N - 1 := by omega
    have h3 : N - (N - 1) = 1 := by omega
    rw [h2, h3]
    rfl
  refine ⟨heq, ?_, ?_⟩ <;> rw [heq] <;>
    simp [List.countP_append, List.countP_replicate]

theorem rateLimit_n_threads_outcome_witness :
    (runSameKey ⟨2, 10, 5⟩ ['a'] 3 ⟨[], 0⟩).1.countP
      (fun o => decide (o = AdmissionOutcome.Allowed)) = 2 :=
  (rateLimit_n_threads_outcome ⟨2, 10, 5⟩ ['a'] 0 3 (by decide) (by decide)
    (by decide)).2.1

/-- C9: an origin of the form `:port` (port delimiter, empty host) is
split successfully with the empty string as host, so the request is not
treated as malformed: it goes through the normal admission step under
the shared empty-string client key. -/
theorem rateLimit_empty_host_key (c : RateLimitConfig) (s : LimiterState)
    (now : Int) (p : List Char) (hc : ':' ∉ p) (hb1 : '[' ∉ p)
    (hb2 : ']' ∉ p) :
    splitHostPort (':' :: p) = some ([], p) ∧
    rateLimitStep c s now (':' :: p) =
      admission c (windowCheck c s now).1 [] ∧
    (rateLimitStep c s now (':' :: p)).1 ≠
      AdmissionOutcome.RejectedMalformedClientIdentity := by
  have hsp := splitHostPort_colon_emptyHost p hc hb1 hb2
  have h2 : rateLimitStep c s now (':' :: p) =
      admission c (windowCheck c s now).1 [] := by
    simp [rateLimitStep, hsp]
  refine ⟨hsp, h2, ?_⟩
  rw [h2]
  exact admission_ne_malformed c _ []

theorem rateLimit_empty_host_key_witness :
    splitHostPort (':' :: "8080".toList) = some ([], "8080".toList) :=
  (rateLimit_empty_host_key ⟨2, 10, 5⟩ ⟨[], 0⟩ 0 "8080".toList (by decide)
    (by decide) (by decide)).1

/-- C10: within one window a key's stored count never decreases under
any admission step; it increments by one exactly on the requests from
that key that are admitted or rejected over the limit; and once a
request from a key is rejected over the per-client limit, every
subsequent same-window request from that key is rejected the same
way. -/
theorem rateLimit_count_monotone_sticky (c : RateLimitConfig)
    (s : LimiterState) (key key' : List Char) :
    mapGet s.hits key ≤ mapGet (admission c s key').2.hits key ∧
    ((admission c s key).1 = AdmissionOutcome.Allowed ∨
      (admission c s key).1 = AdmissionOutcome.RejectedRequestLimitExceeded →
      mapGet (admission c s key).2.hits key = mapGet s.hits key + 1) ∧
    ((admission c s key).1 = AdmissionOutcome.RejectedRequestLimitExceeded →
      ∀ (n : Nat) (o : AdmissionOutcome),
        o ∈ (runSameKey c key n (admission c s key).2).1 →
        o = AdmissionOutcome.RejectedRequestLimitExceeded) := by
  refine ⟨?_, ?_, ?_⟩
  · rw [admission_snd_characterization]
    split
    · exact le_refl _
    · by_cases hk : key = key'
      · subst hk
        simp [mapGet_mapInc_self]
      · simp [mapGet_mapInc_other s.hits key' key hk]
  · intro h
    have hcap : ¬ (mapHas s.hits key = false ∧
        (s.hits.length : Int) ≥ c.maxClients) := by
      intro hcap
      rw [admission_fst_characterization, if_pos hcap] at h
      rcases h with h | h <;> simp at h
    rw [admission_snd_characterization, if_neg hcap]
    simp [mapGet_mapInc_self]
  · intro h n o ho
    have hcap : ¬ (mapHas s.hits key = false ∧
        (s.hits.length : Int) ≥ c.maxClients) := by
      intro hcap
      rw [admission_fst_characterization, if_pos hcap] at h
      simp at h
    have hgt : c.maxRequests < mapGet s.hits key + 1 := by
      by_contra hng
      rw [admission_fst_characterization, if_neg hcap, if_neg hng] at h
      simp at h
    have hsnd : (admission c s key).2 = ⟨mapInc s.hits key, s.reset⟩ := by
      rw [admission_snd_characterization, if_neg hcap]
    refine runSameKey_all_rejected c key n (admission c s key).2 ?_ ?_ o ho
    · rw [hsnd]
      exact mapHas_mapInc_self s.hits key
    · rw [hsnd]
      simpa [mapGet_mapInc_self] using hgt

theorem rateLimit_count_monotone_sticky_witness :
    mapGet (admission ⟨0, 10, 5⟩ ⟨[], 0⟩ ['a']).2.hits ['a'] =
      mapGet ([] : List (List Char × Int)) ['a'] + 1 :=
  (rateLimit_count_monotone_sticky ⟨0, 10, 5⟩ ⟨[], 0⟩ ['a'] ['a']).2.1
    (Or.inr (by decide))
